import Mathlib

/-!
Verification development for a simple fixed-coupon bond pricer
(`SimpleCADPricer`).  The pricer works over civil calendar dates with
month stepping in the style of the `datedelta` package (day-of-month
clamping), computes a clean price as a discounted cashflow sum minus
accrued interest, and exposes the coupon-schedule helpers
`prior_coupon_date` / `next_coupon_date`.

The embedding below models Python `datetime.date` values as
year/month/day records ordered by their proleptic-Gregorian ordinal,
models the source's `while` loops by fuel-indexed recursion returning
`Option` (with `none` for non-termination or a failed `assert`), models
the clock read `datetime.now().year` as an explicit `nowYear` argument,
and idealises IEEE doubles as real numbers (`np.isnan` tests on the two
arguments of `interest_accrued` become explicit Boolean flags).
-/

namespace SimplePricer

/-! ## Calendar dates -/

/-- Gregorian leap-year test, as in Python's `calendar.isleap`. -/
def isLeapYear (y : ℤ) : Bool :=
  y % 4 == 0 && (!(y % 100 == 0) || y % 400 == 0)

/-- Number of days in month `m` (1..12), given the leap flag of the year. -/
def daysInMonthAux (leap : Bool) (m : ℕ) : ℕ :=
  if m = 2 then (if leap then 29 else 28)
  else if m = 4 ∨ m = 6 ∨ m = 9 ∨ m = 11 then 30
  else 31

/-- Number of days in month `m` of year `y`. -/
def daysInMonth (y : ℤ) (m : ℕ) : ℕ :=
  daysInMonthAux (isLeapYear y) m

/-- Days in year `y` strictly before the first of month `m`, by leap flag. -/
def daysBeforeMonthAux (leap : Bool) (m : ℕ) : ℕ :=
  let l : ℕ := if leap then 1 else 0
  match m with
  | 1 => 0
  | 2 => 31
  | 3 => 59 + l
  | 4 => 90 + l
  | 5 => 120 + l
  | 6 => 151 + l
  | 7 => 181 + l
  | 8 => 212 + l
  | 9 => 243 + l
  | 10 => 273 + l
  | 11 => 304 + l
  | 12 => 334 + l
  | _ => 0

/-- Days in year `y` strictly before the first of month `m`. -/
def daysBeforeMonth (y : ℤ) (m : ℕ) : ℕ :=
  daysBeforeMonthAux (isLeapYear y) m

/-- Days strictly before January 1 of year `y`, counted from the proleptic
Gregorian epoch, exactly as in CPython's `datetime._days_before_year`.
Python's `//` is floor division; on `ℤ`, Euclidean `/` agrees with floor
division whenever the divisor is positive, as it is here. -/
def daysBeforeYear (y : ℤ) : ℤ :=
  365 * (y - 1) + (y - 1) / 4 - (y - 1) / 100 + (y - 1) / 400

/-- A civil date, modelling Python's `datetime.date` (year unbounded). -/
structure Date where
  year : ℤ
  month : ℕ
  day : ℕ
deriving DecidableEq

/-- Proleptic Gregorian ordinal of a date, as `datetime.date.toordinal`;
differences of ordinals model `(d1 - d2).days`. -/
def Date.toOrdinal (d : Date) : ℤ :=
  daysBeforeYear d.year + (daysBeforeMonth d.year d.month : ℤ) + (d.day : ℤ)

/-- The validity check performed by the `datetime.date` constructor
(month in 1..12, day in 1..length of the month). -/
def Date.isValid (d : Date) : Bool :=
  1 ≤ d.month && d.month ≤ 12 && 1 ≤ d.day && d.day ≤ daysInMonth d.year d.month

instance : LT Date := ⟨fun a b => a.toOrdinal < b.toOrdinal⟩

instance : LE Date := ⟨fun a b => a.toOrdinal ≤ b.toOrdinal⟩

instance (a b : Date) : Decidable (a < b) :=
  inferInstanceAs (Decidable (a.toOrdinal < b.toOrdinal))

instance (a b : Date) : Decidable (a ≤ b) :=
  inferInstanceAs (Decidable (a.toOrdinal ≤ b.toOrdinal))

/-- The whole-day count `(a - b).days` of Python date subtraction. -/
def daysBetween (a b : Date) : ℤ :=
  a.toOrdinal - b.toOrdinal

/-- Add `m` months to a date with day-of-month clamping, exactly as
`date + datedelta.datedelta(months=m)` (negative `m` subtracts).  The
Python source floor-divides the month total by 12; on `ℤ`, Euclidean
`/` and `%` agree with floor division/modulus for the positive divisor
12. -/
def addMonths (d : Date) (m : ℤ) : Date :=
  let t : ℤ := (d.month : ℤ) - 1 + m
  let y : ℤ := d.year + t / 12
  let mo : ℕ := (t % 12).toNat + 1
  ⟨y, mo, min d.day (daysInMonth y mo)⟩

/-- Iterated period stepping: add `k` periods of `months` months each. -/
def addPeriods (months : ℕ) : ℕ → Date → Date
  | 0, d => d
  | k + 1, d => addPeriods months k (addMonths d (months : ℤ))

/-! ## Coupon schedule (`SimpleCADPricer.prior_coupon_date` / `next_coupon_date`) -/

/-- The forward-stepping `while` loop inside `prior_coupon_date`:
keep adding one period while the result would still land strictly before
the settlement date.  `fuel` bounds the number of iterations; `none`
models non-termination. -/
def priorLoop (months : ℕ) (settlement : Date) : ℕ → Date → Option Date
  | 0, _ => none
  | fuel + 1, cand =>
    if addMonths cand (months : ℤ) < settlement then
      priorLoop months settlement fuel (addMonths cand (months : ℤ))
    else
      some cand

/-- `SimpleCADPricer.prior_coupon_date`.  The seed candidate is built from
the current calendar year (`nowYear`, the modelled `datetime.now().year`)
and the maturity's month and day; if the seed date would be invalid the
`datetime.date` constructor raises, modelled as `none`.  The final
`assert prior_coupon_dt < settlement` is modelled by returning `none`
when it fails. -/
def prior_coupon_date (fuel : ℕ) (nowYear : ℤ) (settlement maturity : Date)
    (frequency : ℕ) : Option Date :=
  let months : ℕ := 12 / frequency
  let seed : Date := ⟨nowYear, maturity.month, maturity.day⟩
  if seed.isValid then
    let start : Date := if settlement < seed then addMonths seed (-(months : ℤ)) else seed
    match priorLoop months settlement fuel start with
    | some p => if p < settlement then some p else none
    | none => none
  else none

/-- `SimpleCADPricer.next_coupon_date`: one period after the prior coupon
date, stepped once more if still before settlement; the final
`assert settlement <= next_coupon_dt` is modelled by `none` on failure. -/
def next_coupon_date (fuel : ℕ) (nowYear : ℤ) (settlement maturity : Date)
    (frequency : ℕ) : Option Date :=
  let months : ℕ := 12 / frequency
  match prior_coupon_date fuel nowYear settlement maturity frequency with
  | none => none
  | some p =>
    let n1 := addMonths p (months : ℤ)
    let n2 := if n1 < settlement then addMonths n1 (months : ℤ) else n1
    if settlement ≤ n2 then some n2 else none

/-! ## Valuation (`SimpleCADPricer.interest_accrued` / `get_clean_price`) -/

/-- `SimpleCADPricer.interest_accrued`.  IEEE doubles are idealised as
reals; the `np.isnan` tests on `coupon_rate` and `frequency` are modelled
by the explicit flags `couponRateNaN` / `frequencyNaN` (a real number
cannot itself be NaN).  Returns `none` when the schedule computation
raises. -/
noncomputable def interest_accrued (fuel : ℕ) (nowYear : ℤ)
    (settlement maturity : Date) (coupon_rate : ℝ) (frequency : ℕ)
    (nominal : ℝ) (couponRateNaN frequencyNaN : Bool) : Option ℝ :=
  if couponRateNaN || frequencyNaN then some 0
  else if |coupon_rate| < 1e-3 then some 0
  else
    match prior_coupon_date fuel nowYear settlement maturity frequency,
          next_coupon_date fuel nowYear settlement maturity frequency with
    | some p, some nx =>
      some (coupon_rate * nominal / frequency
        * (daysBetween settlement p : ℝ) / (daysBetween nx p : ℝ))
    | _, _ => none

/-- The fractional first-period exponent of `get_clean_price`:
`w = (next_coupon_dt - settlement).days / (next_coupon_dt - prior_coupon_dt).days`. -/
noncomputable def fracW (nxt settlement prior : Date) : ℝ :=
  (daysBetween nxt settlement : ℝ) / (daysBetween nxt prior : ℝ)

/-- The cashflow `while` loop of `get_clean_price`: starting from the
coupon date `d` with zero-based period count `n` and accumulator `pv`,
step one period at a time until the candidate equals `maturity` exactly,
adding the discounted coupon `coupon_rate * nominal / frequency
/ (1 + discount_rate / frequency) ^ (n + w)` each iteration.  `fuel`
bounds the iteration count; `none` models non-termination. -/
noncomputable def pvLoop (months : ℕ) (maturity : Date)
    (coupon_rate discount_rate : ℝ) (frequency : ℕ) (nominal w : ℝ) :
    ℕ → Date → ℕ → ℝ → Option (ℝ × ℕ)
  | 0, d, n, pv => if d = maturity then some (pv, n) else none
  | fuel + 1, d, n, pv =>
    if d = maturity then some (pv, n)
    else
      pvLoop months maturity coupon_rate discount_rate frequency nominal w fuel
        (addMonths d (months : ℤ)) (n + 1)
        (pv + coupon_rate * nominal / frequency
          / (1 + discount_rate / frequency) ^ ((n : ℝ) + w))

/-- `SimpleCADPricer.get_clean_price`: schedule, fractional period `w`,
discounted coupon walk, final redemption-plus-coupon cashflow, minus
accrued interest. -/
noncomputable def get_clean_price (fuel : ℕ) (nowYear : ℤ)
    (settlement maturity : Date) (coupon_rate discount_rate : ℝ)
    (frequency : ℕ) (nominal : ℝ) : Option ℝ :=
  match prior_coupon_date fuel nowYear settlement maturity frequency,
        next_coupon_date fuel nowYear settlement maturity frequency with
  | some prior, some nxt =>
    let w : ℝ := fracW nxt settlement prior
    match pvLoop (12 / frequency) maturity coupon_rate discount_rate frequency
        nominal w fuel nxt 0 0 with
    | some (pv, n) =>
      match interest_accrued fuel nowYear settlement maturity coupon_rate
          frequency nominal false false with
      | some ai =>
        some (pv + nominal * (1 + coupon_rate / frequency)
          / (1 + discount_rate / frequency) ^ ((n : ℝ) + w) - ai)
      | none => none
    | none => none
  | _, _ => none

/-! ## Basic calendar lemmas -/

theorem Date.lt_def {a b : Date} : a < b ↔ a.toOrdinal < b.toOrdinal := Iff.rfl

theorem Date.le_def {a b : Date} : a ≤ b ↔ a.toOrdinal ≤ b.toOrdinal := Iff.rfl

theorem Date.not_lt {a b : Date} : ¬ a < b ↔ b ≤ a := by
  rw [Date.lt_def, Date.le_def]; exact Int.not_lt

theorem Date.ne_of_lt {a b : Date} (h : a < b) : a ≠ b := by
  rintro rfl; exact absurd h (by rw [Date.lt_def]; exact lt_irrefl _)

theorem isValid_iff (d : Date) : d.isValid = true ↔
    1 ≤ d.month ∧ d.month ≤ 12 ∧ 1 ≤ d.day ∧ d.day ≤ daysInMonth d.year d.month := by
  simp [Date.isValid, Bool.and_eq_true, decide_eq_true_eq, and_assoc]

theorem isValid_mk (y : ℤ) (mo day : ℕ) : (Date.mk y mo day).isValid = true ↔
    1 ≤ mo ∧ mo ≤ 12 ∧ 1 ≤ day ∧ day ≤ daysInMonthAux (isLeapYear y) mo := by
  simp [Date.isValid, daysInMonth, Bool.and_eq_true, decide_eq_true_eq, and_assoc]

theorem daysInMonthAux_bounds (leap : Bool) (m : ℕ) :
    28 ≤ daysInMonthAux leap m ∧ daysInMonthAux leap m ≤ 31 := by
  unfold daysInMonthAux
  split
  · split <;> omega
  · split <;> omega

theorem daysBeforeMonthAux_step (leap : Bool) :
    ∀ m1 : ℕ, m1 < 13 → ∀ m2 : ℕ, m2 < 13 → 1 ≤ m1 → m1 < m2 →
      daysBeforeMonthAux leap m1 + daysInMonthAux leap m1 ≤ daysBeforeMonthAux leap m2 := by
  cases leap <;> decide

theorem daysBeforeMonthAux_year (leap : Bool) :
    ∀ m : ℕ, m < 13 → 1 ≤ m →
      daysBeforeMonthAux leap m + daysInMonthAux leap m ≤ 365 + (if leap then 1 else 0) := by
  cases leap <;> decide

theorem daysBeforeYear_succ (y : ℤ) :
    daysBeforeYear (y + 1) = daysBeforeYear y + 365 + (if isLeapYear y then 1 else 0) := by
  unfold daysBeforeYear isLeapYear
  have hy : y + 1 - 1 = y := by ring
  rw [hy]
  by_cases hL : (y % 4 == 0 && (!(y % 100 == 0) || y % 400 == 0)) = true
  · rw [if_pos hL]
    simp only [Bool.and_eq_true, Bool.or_eq_true, Bool.not_eq_true', beq_iff_eq,
      beq_eq_false_iff_ne, ne_eq] at hL
    omega
  · rw [if_neg hL]
    simp only [Bool.and_eq_true, Bool.or_eq_true, Bool.not_eq_true', beq_iff_eq,
      beq_eq_false_iff_ne, ne_eq, not_and, not_or] at hL
    omega

theorem addMonths_mk (y : ℤ) (mo day : ℕ) (m : ℤ) :
    addMonths ⟨y, mo, day⟩ m =
      ⟨y + ((mo : ℤ) - 1 + m) / 12, (((mo : ℤ) - 1 + m) % 12).toNat + 1,
        min day (daysInMonth (y + ((mo : ℤ) - 1 + m) / 12)
          ((((mo : ℤ) - 1 + m) % 12).toNat + 1))⟩ := rfl

theorem addMonths_month_bounds (d : Date) (m : ℤ) :
    1 ≤ (addMonths d m).month ∧ (addMonths d m).month ≤ 12 := by
  cases d with
  | mk y mo day =>
    rw [addMonths_mk]
    simp only []
    omega

theorem addMonths_isValid (d : Date) (m : ℤ) (hv : d.isValid = true) :
    (addMonths d m).isValid = true := by
  cases d with
  | mk y mo day =>
    rw [isValid_mk] at hv
    obtain ⟨h1, h2, h3, h4⟩ := hv
    rw [addMonths_mk, isValid_mk]
    simp only [daysInMonth]
    have hb := daysInMonthAux_bounds
      (isLeapYear (y + ((mo : ℤ) - 1 + m) / 12)) ((((mo : ℤ) - 1 + m) % 12).toNat + 1)
    refine ⟨by omega, by omega, ?_, min_le_right _ _⟩
    exact le_min h3 (by omega)

theorem addMonths_zero (d : Date) (hv : d.isValid = true) : addMonths d 0 = d := by
  cases d with
  | mk y mo day =>
    rw [isValid_mk] at hv
    obtain ⟨h1, h2, h3, h4⟩ := hv
    rw [addMonths_mk]
    have hyr : y + ((mo : ℤ) - 1 + 0) / 12 = y := by omega
    have hmo2 : (((mo : ℤ) - 1 + 0) % 12).toNat + 1 = mo := by omega
    rw [hyr, hmo2]
    simp only [Date.mk.injEq]
    refine ⟨trivial, trivial, ?_⟩
    simp only [daysInMonth]
    exact min_eq_left h4

theorem lt_addMonths (d : Date) (mstep : ℕ) (hv : d.isValid = true)
    (hs1 : 1 ≤ mstep) (hs2 : mstep ≤ 12) : d < addMonths d (mstep : ℤ) := by
  cases d with
  | mk y mo day =>
    rw [isValid_mk] at hv
    obtain ⟨h1, h2, h3, h4⟩ := hv
    rw [Date.lt_def, addMonths_mk]
    simp only [Date.toOrdinal, daysBeforeMonth, daysInMonth]
    rcases (by omega : ((mo : ℤ) - 1 + (mstep : ℤ)) / 12 = 0 ∨
        ((mo : ℤ) - 1 + (mstep : ℤ)) / 12 = 1) with hq | hq
    · -- no year wrap: the new month is mo + mstep in the same year
      have hyr : y + ((mo : ℤ) - 1 + (mstep : ℤ)) / 12 = y := by omega
      have hmo2 : (((mo : ℤ) - 1 + (mstep : ℤ)) % 12).toNat + 1 = mo + mstep := by omega
      rw [hyr, hmo2]
      have hstep := daysBeforeMonthAux_step (isLeapYear y) mo (by omega)
        (mo + mstep) (by omega) h1 (by omega)
      have hb := daysInMonthAux_bounds (isLeapYear y) (mo + mstep)
      have hmin : 1 ≤ min day (daysInMonthAux (isLeapYear y) (mo + mstep)) :=
        le_min h3 (by omega)
      omega
    · -- year wrap: the new year is y + 1
      have hyr : y + ((mo : ℤ) - 1 + (mstep : ℤ)) / 12 = y + 1 := by omega
      rw [hyr]
      have hdbY := daysBeforeYear_succ y
      have hyT := daysBeforeMonthAux_year (isLeapYear y) mo (by omega) h1
      have hb := daysInMonthAux_bounds (isLeapYear (y + 1))
        ((((mo : ℤ) - 1 + (mstep : ℤ)) % 12).toNat + 1)
      have hmin : 1 ≤ min day (daysInMonthAux (isLeapYear (y + 1))
          ((((mo : ℤ) - 1 + (mstep : ℤ)) % 12).toNat + 1)) :=
        le_min h3 (by omega)
      cases hL : isLeapYear y <;> simp only [hL, if_true, if_false,
        Bool.false_eq_true, Bool.true_eq_false, ite_true, ite_false] at hdbY hyT h4 ⊢ <;> omega

theorem addPeriods_isValid (months : ℕ) :
    ∀ (k : ℕ) (d : Date), d.isValid = true → (addPeriods months k d).isValid = true := by
  intro k
  induction k with
  | zero => exact fun d h => h
  | succ k ih =>
    intro d hv
    exact ih _ (addMonths_isValid d _ hv)

theorem lt_addPeriods (months : ℕ) (h1 : 1 ≤ months) (h2 : months ≤ 12) :
    ∀ (k : ℕ) (d : Date), d.isValid = true → 1 ≤ k → d < addPeriods months k d := by
  intro k
  induction k with
  | zero => omega
  | succ k ih =>
    intro d hv _
    have hstep : d < addMonths d (months : ℤ) := lt_addMonths d months hv h1 h2
    rcases Nat.eq_zero_or_pos k with hk | hk
    · subst hk
      exact hstep
    · have := ih (addMonths d (months : ℤ)) (addMonths_isValid d _ hv) hk
      rw [Date.lt_def] at *
      have goal_eq : addPeriods months (k + 1) d = addPeriods months k (addMonths d (months : ℤ)) := rfl
      rw [goal_eq]
      omega

theorem ne_addPeriods (months : ℕ) (h1 : 1 ≤ months) (h2 : months ≤ 12)
    (k : ℕ) (d : Date) (hv : d.isValid = true) (hk : 1 ≤ k) :
    d ≠ addPeriods months k d :=
  Date.ne_of_lt (lt_addPeriods months h1 h2 k d hv hk)

/-! ## Schedule-loop invariants -/

theorem priorLoop_some (months : ℕ) (settlement : Date) :
    ∀ (fuel : ℕ) (cand p : Date), priorLoop months settlement fuel cand = some p →
      ¬ addMonths p (months : ℤ) < settlement ∧ (cand.isValid = true → p.isValid = true) := by
  intro fuel
  induction fuel with
  | zero => intro cand p h; exact absurd h (by simp [priorLoop])
  | succ fuel ih =>
    intro cand p h
    rw [priorLoop] at h
    by_cases hA : addMonths cand (months : ℤ) < settlement
    · rw [if_pos hA] at h
      obtain ⟨hbreak, hval⟩ := ih _ _ h
      exact ⟨hbreak, fun hc => hval (addMonths_isValid _ _ hc)⟩
    · rw [if_neg hA] at h
      obtain rfl : cand = p := by injection h
      exact ⟨hA, id⟩

theorem priorLoop_mono (months : ℕ) (settlement : Date) :
    ∀ (fuel fuel' : ℕ) (cand p : Date), priorLoop months settlement fuel cand = some p →
      fuel ≤ fuel' → priorLoop months settlement fuel' cand = some p := by
  intro fuel
  induction fuel with
  | zero => intro fuel' cand p h; exact absurd h (by simp [priorLoop])
  | succ fuel ih =>
    intro fuel' cand p h hle
    obtain ⟨f', rfl⟩ : ∃ f', fuel' = f' + 1 := ⟨fuel' - 1, by omega⟩
    rw [priorLoop] at h ⊢
    by_cases hA : addMonths cand (months : ℤ) < settlement
    · rw [if_pos hA] at h ⊢
      exact ih _ _ _ h (by omega)
    · rwa [if_neg hA] at h ⊢

/-- When the loop steps by zero months from a valid start it never exits
with the `assert` satisfied: the candidate is stuck. -/
theorem priorLoop_zero_months (settlement : Date) :
    ∀ (fuel : ℕ) (cand p : Date), cand.isValid = true →
      priorLoop 0 settlement fuel cand = some p → p = cand ∧ ¬ cand < settlement := by
  intro fuel
  induction fuel with
  | zero => intro cand p _ h; exact absurd h (by simp [priorLoop])
  | succ fuel ih =>
    intro cand p hv h
    rw [priorLoop] at h
    rw [show ((0 : ℕ) : ℤ) = 0 from rfl, addMonths_zero cand hv] at h
    by_cases hA : cand < settlement
    · rw [if_pos hA] at h
      obtain ⟨rfl, hns⟩ := ih _ _ hv h
      exact absurd hA hns
    · rw [if_neg hA] at h
      obtain rfl : cand = p := by injection h
      exact ⟨rfl, hA⟩

theorem prior_coupon_date_some {fuel : ℕ} {nowYear : ℤ} {settlement maturity : Date}
    {frequency : ℕ} {p : Date}
    (hp : prior_coupon_date fuel nowYear settlement maturity frequency = some p) :
    p < settlement ∧ ¬ addMonths p ((12 / frequency : ℕ) : ℤ) < settlement ∧
      p.isValid = true := by
  unfold prior_coupon_date at hp
  by_cases hseed : (Date.mk nowYear maturity.month maturity.day).isValid = true
  · rw [if_pos hseed] at hp
    simp only [] at hp
    set start := if settlement < (Date.mk nowYear maturity.month maturity.day) then
        addMonths (Date.mk nowYear maturity.month maturity.day) (-((12 / frequency : ℕ) : ℤ))
      else (Date.mk nowYear maturity.month maturity.day) with hstart
    have hstartv : start.isValid = true := by
      rw [hstart]
      split
      · exact addMonths_isValid _ _ hseed
      · exact hseed
    rcases hloop : priorLoop (12 / frequency) settlement fuel start with - | q
    · rw [hloop] at hp; exact absurd hp (by simp)
    · rw [hloop] at hp
      change (if q < settlement then some q else none) = some p at hp
      by_cases hq : q < settlement
      · rw [if_pos hq] at hp
        obtain rfl : q = p := by injection hp
        obtain ⟨hbreak, hval⟩ := priorLoop_some _ _ _ _ _ hloop
        exact ⟨hq, hbreak, hval hstartv⟩
      · rw [if_neg hq] at hp
        exact absurd hp (by simp)
  · rw [if_neg hseed] at hp
    exact absurd hp (by simp)

theorem months_pos_of_prior_some {fuel : ℕ} {nowYear : ℤ} {settlement maturity : Date}
    {frequency : ℕ} {p : Date}
    (hp : prior_coupon_date fuel nowYear settlement maturity frequency = some p) :
    1 ≤ 12 / frequency := by
  by_contra hmz
  have hmz : 12 / frequency = 0 := Nat.eq_zero_of_not_pos hmz
  unfold prior_coupon_date at hp
  rw [hmz] at hp
  by_cases hseed : (Date.mk nowYear maturity.month maturity.day).isValid = true
  · rw [if_pos hseed] at hp
    simp only [] at hp
    rw [show (-((0 : ℕ) : ℤ)) = 0 from rfl, addMonths_zero _ hseed, ite_self] at hp
    rcases hloop : priorLoop 0 settlement fuel (Date.mk nowYear maturity.month maturity.day)
        with - | q
    · rw [hloop] at hp; exact absurd hp (by simp)
    · rw [hloop] at hp
      change (if q < settlement then some q else none) = some p at hp
      obtain ⟨rfl, hns⟩ := priorLoop_zero_months _ _ _ _ hseed hloop
      rw [if_neg hns] at hp
      exact absurd hp (by simp)
  · rw [if_neg hseed] at hp
    exact absurd hp (by simp)

theorem next_coupon_date_eq {fuel : ℕ} {nowYear : ℤ} {settlement maturity : Date}
    {frequency : ℕ} {p : Date}
    (hp : prior_coupon_date fuel nowYear settlement maturity frequency = some p) :
    next_coupon_date fuel nowYear settlement maturity frequency
      = some (addMonths p ((12 / frequency : ℕ) : ℤ)) := by
  obtain ⟨hlt, hbreak, hval⟩ := prior_coupon_date_some hp
  simp only [next_coupon_date, hp]
  rw [if_neg hbreak, if_pos (Date.not_lt.mp hbreak)]

theorem next_coupon_date_some_inv {fuel : ℕ} {nowYear : ℤ} {settlement maturity : Date}
    {frequency : ℕ} {nx : Date}
    (hn : next_coupon_date fuel nowYear settlement maturity frequency = some nx) :
    ∃ p, prior_coupon_date fuel nowYear settlement maturity frequency = some p ∧
      nx = addMonths p ((12 / frequency : ℕ) : ℤ) := by
  rcases hp : prior_coupon_date fuel nowYear settlement maturity frequency with - | p
  · unfold next_coupon_date at hn
    rw [hp] at hn
    exact absurd hn (by simp)
  · have heq := next_coupon_date_eq hp
    rw [heq] at hn
    obtain rfl : addMonths p ((12 / frequency : ℕ) : ℤ) = nx := by injection hn
    exact ⟨p, rfl, rfl⟩

theorem prior_coupon_date_mono {fuel fuel' : ℕ} {nowYear : ℤ} {settlement maturity : Date}
    {frequency : ℕ} {p : Date}
    (hp : prior_coupon_date fuel nowYear settlement maturity frequency = some p)
    (hle : fuel ≤ fuel') :
    prior_coupon_date fuel' nowYear settlement maturity frequency = some p := by
  unfold prior_coupon_date at hp ⊢
  by_cases hseed : (Date.mk nowYear maturity.month maturity.day).isValid = true
  · rw [if_pos hseed] at hp ⊢
    simp only [] at hp ⊢
    rcases hloop : priorLoop (12 / frequency) settlement fuel
        (if settlement < (Date.mk nowYear maturity.month maturity.day) then
          addMonths (Date.mk nowYear maturity.month maturity.day) (-((12 / frequency : ℕ) : ℤ))
        else (Date.mk nowYear maturity.month maturity.day)) with - | q
    · rw [hloop] at hp; exact absurd hp (by simp)
    · rw [hloop] at hp
      change (if q < settlement then some q else none) = some p at hp
      rw [priorLoop_mono _ _ _ _ _ _ hloop hle]
      change (if q < settlement then some q else none) = some p
      exact hp
  · rw [if_neg hseed] at hp
    exact absurd hp (by simp)

theorem prior_coupon_date_unique {fuel fuel' : ℕ} {nowYear : ℤ} {settlement maturity : Date}
    {frequency : ℕ} {p p' : Date}
    (hp : prior_coupon_date fuel nowYear settlement maturity frequency = some p)
    (hp' : prior_coupon_date fuel' nowYear settlement maturity frequency = some p') :
    p = p' := by
  have h1 := prior_coupon_date_mono hp (Nat.le_max_left fuel fuel')
  have h2 := prior_coupon_date_mono hp' (Nat.le_max_right fuel fuel')
  rw [h1] at h2
  injection h2

/-! ## Cashflow-walk lemmas -/

theorem pvLoop_steps (months : ℕ) (maturity : Date) (c r : ℝ) (f : ℕ) (N w : ℝ) :
    ∀ (fuel : ℕ) (d : Date) (n : ℕ) (pv : ℝ) (q : ℝ × ℕ),
      pvLoop months maturity c r f N w fuel d n pv = some q →
      ∃ k, k ≤ fuel ∧ addPeriods months k d = maturity := by
  intro fuel
  induction fuel with
  | zero =>
    intro d n pv q h
    rw [pvLoop] at h
    by_cases hd : d = maturity
    · exact ⟨0, le_refl 0, hd⟩
    · rw [if_neg hd] at h
      exact absurd h (by simp)
  | succ fuel ih =>
    intro d n pv q h
    rw [pvLoop] at h
    by_cases hd : d = maturity
    · exact ⟨0, by omega, hd⟩
    · rw [if_neg hd] at h
      obtain ⟨k, hk1, hk2⟩ := ih _ _ _ _ h
      exact ⟨k + 1, by omega, hk2⟩

theorem pvLoop_isSome_of (months : ℕ) (maturity : Date) (c r : ℝ) (f : ℕ) (N w : ℝ) :
    ∀ (k fuel : ℕ) (d : Date) (n : ℕ) (pv : ℝ),
      addPeriods months k d = maturity → k ≤ fuel →
      (pvLoop months maturity c r f N w fuel d n pv).isSome = true := by
  intro k
  induction k with
  | zero =>
    intro fuel d n pv hk _
    obtain rfl : d = maturity := hk
    cases fuel <;> simp [pvLoop]
  | succ k ih =>
    intro fuel d n pv hk hle
    obtain ⟨fl, rfl⟩ : ∃ fl, fuel = fl + 1 := ⟨fuel - 1, by omega⟩
    rw [pvLoop]
    by_cases hd : d = maturity
    · rw [if_pos hd]; rfl
    · rw [if_neg hd]
      exact ih fl (addMonths d (months : ℤ)) (n + 1) _ hk (by omega)

theorem pvLoop_sum (months : ℕ) (maturity : Date) (c r : ℝ) (f : ℕ) (N w : ℝ)
    (hm1 : 1 ≤ months) (hm2 : months ≤ 12) :
    ∀ (k fuel : ℕ) (d : Date) (n : ℕ) (pv : ℝ), d.isValid = true →
      addPeriods months k d = maturity → k ≤ fuel →
      pvLoop months maturity c r f N w fuel d n pv
        = some (pv + ∑ i ∈ Finset.range k,
            c * N / f / (1 + r / f) ^ (((n + i : ℕ) : ℝ) + w), n + k) := by
  intro k
  induction k with
  | zero =>
    intro fuel d n pv _ hk _
    obtain rfl : d = maturity := hk
    cases fuel <;> simp [pvLoop]
  | succ k ih =>
    intro fuel d n pv hv hk hle
    have hne : d ≠ maturity := by
      have hlt := lt_addPeriods months hm1 hm2 (k + 1) d hv (by omega)
      rw [hk] at hlt
      exact Date.ne_of_lt hlt
    obtain ⟨fl, rfl⟩ : ∃ fl, fuel = fl + 1 := ⟨fuel - 1, by omega⟩
    rw [pvLoop, if_neg hne]
    rw [ih fl (addMonths d (months : ℤ)) (n + 1)
      (pv + c * N / f / (1 + r / f) ^ ((n : ℝ) + w))
      (addMonths_isValid d _ hv) hk (by omega)]
    simp only [Option.some.injEq, Prod.mk.injEq]
    refine ⟨?_, by omega⟩
    rw [Finset.sum_range_succ']
    have hshift : ∀ i ∈ Finset.range k,
        c * N / f / (1 + r / f) ^ (((n + 1 + i : ℕ) : ℝ) + w)
          = c * N / f / (1 + r / f) ^ (((n + (i + 1) : ℕ) : ℝ) + w) := by
      intro i _
      rw [show n + 1 + i = n + (i + 1) from by omega]
    rw [Finset.sum_congr rfl hshift]
    rw [show ((n + 0 : ℕ) : ℝ) = (n : ℝ) from by norm_num]
    ring

theorem interest_accrued_some {fuel : ℕ} {nowYear : ℤ} {settlement maturity : Date}
    {frequency : ℕ} {p nx : Date} (c nominal : ℝ)
    (hp : prior_coupon_date fuel nowYear settlement maturity frequency = some p)
    (hn : next_coupon_date fuel nowYear settlement maturity frequency = some nx) :
    ∃ ai, interest_accrued fuel nowYear settlement maturity c frequency nominal false false
      = some ai := by
  unfold interest_accrued
  rw [hp, hn]
  by_cases hg : |c| < (1e-3 : ℝ)
  · exact ⟨0, by rw [if_neg (by simp), if_pos hg]⟩
  · exact ⟨_, by rw [if_neg (by simp), if_neg hg]⟩

/-- Closed form of the clean price: when the schedule succeeds and
`maturity` is `k` whole periods after the next coupon date, the walk of
`get_clean_price` produces exactly the spec's discounted cashflow sum. -/
theorem get_clean_price_closed (fuel : ℕ) (nowYear : ℤ) (settlement maturity : Date)
    (c r : ℝ) (f : ℕ) (N : ℝ) (p nx : Date) (k : ℕ) (ai : ℝ)
    (hp : prior_coupon_date fuel nowYear settlement maturity f = some p)
    (hn : next_coupon_date fuel nowYear settlement maturity f = some nx)
    (hk : addPeriods (12 / f) k nx = maturity)
    (hkf : k ≤ fuel)
    (hai : interest_accrued fuel nowYear settlement maturity c f N false false = some ai) :
    get_clean_price fuel nowYear settlement maturity c r f N
      = some ((∑ i ∈ Finset.range k,
            c * N / f / (1 + r / f) ^ ((i : ℝ) + fracW nx settlement p))
          + N * (1 + c / f) / (1 + r / f) ^ ((k : ℝ) + fracW nx settlement p) - ai) := by
  have hm1 := months_pos_of_prior_some hp
  have hm2 : 12 / f ≤ 12 := Nat.div_le_self 12 f
  obtain ⟨q, hq, hnxeq⟩ := next_coupon_date_some_inv hn
  rw [hp] at hq
  obtain rfl : p = q := by injection hq
  have hnxv : nx.isValid = true := by
    rw [hnxeq]
    exact addMonths_isValid _ _ (prior_coupon_date_some hp).2.2
  unfold get_clean_price
  rw [hp, hn]
  simp only []
  rw [pvLoop_sum (12 / f) maturity c r f N (fracW nx settlement p) hm1 hm2 k fuel nx 0 0
    hnxv hk hkf]
  simp only []
  rw [hai]
  simp only [Option.some.injEq]
  rw [show ((0 + k : ℕ) : ℝ) = (k : ℝ) from by norm_num]
  have hz : ∀ i ∈ Finset.range k,
      c * N / f / (1 + r / f) ^ (((0 + i : ℕ) : ℝ) + fracW nx settlement p)
        = c * N / f / (1 + r / f) ^ ((i : ℝ) + fracW nx settlement p) := by
    intro i _
    rw [show ((0 + i : ℕ) : ℝ) = (i : ℝ) from by norm_num]
  rw [Finset.sum_congr rfl hz]
  ring

theorem gcp_isSome_imp {fuel : ℕ} {ny : ℤ} {s m : Date} {c r : ℝ} {f : ℕ} {N : ℝ}
    (h : (get_clean_price fuel ny s m c r f N).isSome = true) :
    ∃ nx k, next_coupon_date fuel ny s m f = some nx ∧ addPeriods (12 / f) k nx = m := by
  unfold get_clean_price at h
  rcases hp : prior_coupon_date fuel ny s m f with - | p
  · rw [hp] at h
    simp at h
  · rw [hp] at h
    rcases hn : next_coupon_date fuel ny s m f with - | nx
    · rw [hn] at h
      simp at h
    · rw [hn] at h
      simp only [] at h
      rcases hpv : pvLoop (12 / f) m c r f N (fracW nx s p) fuel nx 0 0 with - | q
      · rw [hpv] at h
        simp at h
      · obtain ⟨k, -, hk⟩ := pvLoop_steps (12 / f) m c r f N (fracW nx s p) fuel nx 0 0 q hpv
        exact ⟨nx, k, rfl, hk⟩

theorem gcp_isSome_of (fuel : ℕ) (ny : ℤ) (s m : Date) (f : ℕ) (c r N : ℝ) (p nx : Date)
    (k : ℕ)
    (hp : prior_coupon_date fuel ny s m f = some p)
    (hn : next_coupon_date fuel ny s m f = some nx)
    (hk : addPeriods (12 / f) k nx = m) :
    (get_clean_price (fuel + k) ny s m c r f N).isSome = true := by
  have hp' := prior_coupon_date_mono hp (Nat.le_add_right fuel k)
  obtain ⟨q, hq, hnxeq⟩ := next_coupon_date_some_inv hn
  rw [hp] at hq
  obtain rfl : p = q := by injection hq
  have hn' : next_coupon_date (fuel + k) ny s m f = some nx := by
    rw [next_coupon_date_eq hp', ← hnxeq]
  obtain ⟨ai, hai⟩ := interest_accrued_some c N hp' hn'
  have hpv := pvLoop_isSome_of (12 / f) m c r f N (fracW nx s p) k (fuel + k) nx 0 0 hk
    (Nat.le_add_left k fuel)
  obtain ⟨w, hw⟩ := Option.isSome_iff_exists.mp hpv
  obtain ⟨pv, n⟩ := w
  unfold get_clean_price
  rw [hp', hn']
  simp only []
  rw [hw, hai]
  rfl

/-! ## The claims -/

/-- C3 counterexample: with the system clock in 2020, maturity 2028-06-01
and frequency 2, a settlement of 2020-12-01 lies exactly on a coupon
date; `next_coupon_date` returns the settlement itself, so the claimed
strict inequality `settlement < nextCouponDate` fails. -/
theorem claim_C3_counterexample :
    prior_coupon_date 30 2020 ⟨2020, 12, 1⟩ ⟨2028, 6, 1⟩ 2 = some ⟨2020, 6, 1⟩
    ∧ next_coupon_date 30 2020 ⟨2020, 12, 1⟩ ⟨2028, 6, 1⟩ 2 = some ⟨2020, 12, 1⟩
    ∧ ¬ ((⟨2020, 12, 1⟩ : Date) < (⟨2020, 12, 1⟩ : Date)) := by
  refine ⟨by decide, by decide, by decide⟩

/-- C3 (amended): whenever the schedule functions return,
`priorCouponDate ≤ settlement ≤ nextCouponDate` (the right inequality is
non-strict: settlement may equal the next coupon date), and the next
coupon date is exactly one period of `12 / frequency` months (with
day-of-month clamping) after the prior coupon date. -/
theorem claim_C3 (fuel : ℕ) (nowYear : ℤ) (settlement maturity : Date) (frequency : ℕ)
    (p nx : Date)
    (hp : prior_coupon_date fuel nowYear settlement maturity frequency = some p)
    (hn : next_coupon_date fuel nowYear settlement maturity frequency = some nx) :
    p ≤ settlement ∧ settlement ≤ nx
      ∧ nx = addMonths p ((12 / frequency : ℕ) : ℤ) := by
  obtain ⟨hlt, hbreak, -⟩ := prior_coupon_date_some hp
  obtain ⟨q, hq, hnxeq⟩ := next_coupon_date_some_inv hn
  rw [hp] at hq
  obtain rfl : p = q := by injection hq
  refine ⟨?_, ?_, hnxeq⟩
  · rw [Date.le_def]
    rw [Date.lt_def] at hlt
    exact le_of_lt hlt
  · rw [hnxeq]
    exact Date.not_lt.mp hbreak

/-- C3 witness. -/
theorem claim_C3_witness :
    (⟨2019, 12, 1⟩ : Date) ≤ ⟨2020, 5, 12⟩ ∧ (⟨2020, 5, 12⟩ : Date) ≤ ⟨2020, 6, 1⟩
      ∧ (⟨2020, 6, 1⟩ : Date) = addMonths ⟨2019, 12, 1⟩ ((12 / 2 : ℕ) : ℤ) :=
  claim_C3 30 2020 ⟨2020, 5, 12⟩ ⟨2028, 6, 1⟩ 2 ⟨2019, 12, 1⟩ ⟨2020, 6, 1⟩
    (by decide) (by decide)

/-- C4: whenever the schedule functions return, the prior coupon date is
strictly before settlement and the next coupon date is at or after
settlement; in particular when settlement lies exactly one period after
the prior coupon date (i.e. on a coupon date of the lattice),
`next_coupon_date` returns the settlement itself. -/
theorem claim_C4 (fuel : ℕ) (nowYear : ℤ) (settlement maturity : Date) (frequency : ℕ)
    (p nx : Date)
    (hp : prior_coupon_date fuel nowYear settlement maturity frequency = some p)
    (hn : next_coupon_date fuel nowYear settlement maturity frequency = some nx) :
    p < settlement ∧ settlement ≤ nx
      ∧ (addMonths p ((12 / frequency : ℕ) : ℤ) = settlement → nx = settlement) := by
  obtain ⟨hlt, hbreak, -⟩ := prior_coupon_date_some hp
  obtain ⟨q, hq, hnxeq⟩ := next_coupon_date_some_inv hn
  rw [hp] at hq
  obtain rfl : p = q := by injection hq
  refine ⟨hlt, ?_, ?_⟩
  · rw [hnxeq]
    exact Date.not_lt.mp hbreak
  · intro hon
    rw [hnxeq, hon]

/-- C4 witness: settlement 2020-12-01 is exactly on the coupon lattice
and `next_coupon_date` returns it unchanged. -/
theorem claim_C4_witness :
    (⟨2020, 6, 1⟩ : Date) < ⟨2020, 12, 1⟩ ∧ (⟨2020, 12, 1⟩ : Date) ≤ ⟨2020, 12, 1⟩
      ∧ (⟨2020, 12, 1⟩ : Date) = ⟨2020, 12, 1⟩ := by
  have h := claim_C4 30 2020 ⟨2020, 12, 1⟩ ⟨2028, 6, 1⟩ 2 ⟨2020, 6, 1⟩ ⟨2020, 12, 1⟩
    (by decide) (by decide)
  exact ⟨h.1, h.2.1, h.2.2 (by decide)⟩

/-- C8: the cashflow walk of `get_clean_price` terminates (for some fuel
bound) exactly when the maturity is reachable from the next coupon date
by a whole number (possibly zero) of `12 / frequency`-month periods;
otherwise no amount of fuel makes it return, i.e. the loop runs forever. -/
theorem claim_C8 (fuel0 : ℕ) (nowYear : ℤ) (settlement maturity : Date)
    (coupon_rate discount_rate : ℝ) (frequency : ℕ) (nominal : ℝ) (nx : Date)
    (hn : next_coupon_date fuel0 nowYear settlement maturity frequency = some nx) :
    (∃ fuel, (get_clean_price fuel nowYear settlement maturity coupon_rate discount_rate
        frequency nominal).isSome = true)
      ↔ (∃ k, addPeriods (12 / frequency) k nx = maturity) := by
  constructor
  · rintro ⟨fuel, hS⟩
    obtain ⟨nx', k, hn', hk⟩ := gcp_isSome_imp hS
    obtain ⟨q0, hq0, hnx0⟩ := next_coupon_date_some_inv hn
    obtain ⟨q1, hq1, hnx1⟩ := next_coupon_date_some_inv hn'
    have hq : q0 = q1 := prior_coupon_date_unique hq0 hq1
    refine ⟨k, ?_⟩
    rw [hnx0, hq, ← hnx1]
    exact hk
  · rintro ⟨k, hk⟩
    obtain ⟨p, hp, -⟩ := next_coupon_date_some_inv hn
    exact ⟨fuel0 + k, gcp_isSome_of fuel0 nowYear settlement maturity frequency
      coupon_rate discount_rate nominal p nx k hp hn hk⟩

/-- C8 witness: the termination equivalence instantiated at the reference
example (next coupon 2020-06-01, maturity 2028-06-01, frequency 2, where
the maturity is 16 semiannual periods after the next coupon date). -/
theorem claim_C8_witness :
    (∃ fuel, (get_clean_price fuel 2020 ⟨2020, 5, 12⟩ ⟨2028, 6, 1⟩ (2 / 100) (1 / 100) 2
        100).isSome = true)
      ↔ (∃ k, addPeriods (12 / 2) k ⟨2020, 6, 1⟩ = ⟨2028, 6, 1⟩) :=
  claim_C8 30 2020 ⟨2020, 5, 12⟩ ⟨2028, 6, 1⟩ (2 / 100) (1 / 100) 2 100 ⟨2020, 6, 1⟩
    (by decide)

/-- C10: the maturity's year never influences the coupon schedule or the
accrued interest: two maturities sharing month and day give identical
`prior_coupon_date`, `next_coupon_date` and `interest_accrued` results. -/
theorem claim_C10 (fuel : ℕ) (nowYear : ℤ) (settlement : Date) (frequency : ℕ)
    (m1 m2 : Date) (coupon_rate nominal : ℝ) (cNaN fNaN : Bool)
    (hmo : m1.month = m2.month) (hd : m1.day = m2.day) :
    prior_coupon_date fuel nowYear settlement m1 frequency
        = prior_coupon_date fuel nowYear settlement m2 frequency
    ∧ next_coupon_date fuel nowYear settlement m1 frequency
        = next_coupon_date fuel nowYear settlement m2 frequency
    ∧ interest_accrued fuel nowYear settlement m1 coupon_rate frequency nominal cNaN fNaN
        = interest_accrued fuel nowYear settlement m2 coupon_rate frequency nominal cNaN fNaN := by
  have hprior : prior_coupon_date fuel nowYear settlement m1 frequency
      = prior_coupon_date fuel nowYear settlement m2 frequency := by
    unfold prior_coupon_date
    rw [hmo, hd]
  have hnext : next_coupon_date fuel nowYear settlement m1 frequency
      = next_coupon_date fuel nowYear settlement m2 frequency := by
    unfold next_coupon_date
    rw [hprior]
  refine ⟨hprior, hnext, ?_⟩
  unfold interest_accrued
  rw [hprior, hnext]

/-- C10 witness: maturities 2028-06-01 and 2035-06-01 give identical
schedules and accrued interest. -/
theorem claim_C10_witness :
    prior_coupon_date 30 2020 ⟨2020, 5, 12⟩ ⟨2028, 6, 1⟩ 2
        = prior_coupon_date 30 2020 ⟨2020, 5, 12⟩ ⟨2035, 6, 1⟩ 2
    ∧ next_coupon_date 30 2020 ⟨2020, 5, 12⟩ ⟨2028, 6, 1⟩ 2
        = next_coupon_date 30 2020 ⟨2020, 5, 12⟩ ⟨2035, 6, 1⟩ 2
    ∧ interest_accrued 30 2020 ⟨2020, 5, 12⟩ ⟨2028, 6, 1⟩ (2 / 100) 2 100 false false
        = interest_accrued 30 2020 ⟨2020, 5, 12⟩ ⟨2035, 6, 1⟩ (2 / 100) 2 100 false false :=
  claim_C10 30 2020 ⟨2020, 5, 12⟩ 2 ⟨2028, 6, 1⟩ ⟨2035, 6, 1⟩ (2 / 100) 100 false false
    rfl rfl

/-- C1: for all arguments on which the schedule is defined and whose
maturity lies on the coupon lattice (`k` whole `12 / frequency`-month
periods after the next coupon date, with enough fuel for the walk),
`get_clean_price` returns the sum over the coupon dates strictly before
maturity of `couponRate * nominal / frequency` discounted by
`(1 + discountRate/frequency) ^ (n + w)` (`n` the zero-based step count,
`w` the fractional first period), plus the final cashflow
`nominal * (1 + couponRate/frequency)` discounted at the final `n = k`,
minus `interest_accrued` on the same arguments. -/
theorem claim_C1 (fuel : ℕ) (nowYear : ℤ) (settlement maturity : Date)
    (coupon_rate discount_rate : ℝ) (frequency : ℕ) (nominal : ℝ)
    (p nx : Date) (k : ℕ) (ai : ℝ)
    (hp : prior_coupon_date fuel nowYear settlement maturity frequency = some p)
    (hn : next_coupon_date fuel nowYear settlement maturity frequency = some nx)
    (hk : addPeriods (12 / frequency) k nx = maturity)
    (hkf : k ≤ fuel)
    (hai : interest_accrued fuel nowYear settlement maturity coupon_rate frequency nominal
      false false = some ai) :
    get_clean_price fuel nowYear settlement maturity coupon_rate discount_rate frequency nominal
      = some ((∑ i ∈ Finset.range k, coupon_rate * nominal / frequency
            / (1 + discount_rate / frequency) ^ ((i : ℝ) + fracW nx settlement p))
          + nominal * (1 + coupon_rate / frequency)
            / (1 + discount_rate / frequency) ^ ((k : ℝ) + fracW nx settlement p)
          - ai) :=
  get_clean_price_closed fuel nowYear settlement maturity coupon_rate discount_rate frequency
    nominal p nx k ai hp hn hk hkf hai

/-- C1 witness: settlement 2020-05-12, maturity 2021-06-01, frequency 2,
with the clock in 2020: prior coupon 2019-12-01, next coupon 2020-06-01,
two further periods to maturity. -/
theorem claim_C1_witness :
    get_clean_price 30 2020 ⟨2020, 5, 12⟩ ⟨2021, 6, 1⟩ (2 / 100) (1 / 100) 2 100
      = some ((∑ i ∈ Finset.range 2, 2 / 100 * 100 / ((2 : ℕ) : ℝ)
            / (1 + 1 / 100 / ((2 : ℕ) : ℝ))
              ^ ((i : ℝ) + fracW ⟨2020, 6, 1⟩ ⟨2020, 5, 12⟩ ⟨2019, 12, 1⟩))
          + 100 * (1 + 2 / 100 / ((2 : ℕ) : ℝ))
            / (1 + 1 / 100 / ((2 : ℕ) : ℝ))
              ^ (((2 : ℕ) : ℝ) + fracW ⟨2020, 6, 1⟩ ⟨2020, 5, 12⟩ ⟨2019, 12, 1⟩)
          - (2 / 100 * 100 / ((2 : ℕ) : ℝ)
            * ((daysBetween ⟨2020, 5, 12⟩ ⟨2019, 12, 1⟩ : ℤ) : ℝ)
            / ((daysBetween ⟨2020, 6, 1⟩ ⟨2019, 12, 1⟩ : ℤ) : ℝ))) := by
  have hai : interest_accrued 30 2020 ⟨2020, 5, 12⟩ ⟨2021, 6, 1⟩ (2 / 100) 2 100 false false
      = some (2 / 100 * 100 / ((2 : ℕ) : ℝ)
          * ((daysBetween ⟨2020, 5, 12⟩ ⟨2019, 12, 1⟩ : ℤ) : ℝ)
          / ((daysBetween ⟨2020, 6, 1⟩ ⟨2019, 12, 1⟩ : ℤ) : ℝ)) := by
    unfold interest_accrued
    rw [show prior_coupon_date 30 2020 ⟨2020, 5, 12⟩ ⟨2021, 6, 1⟩ 2 = some ⟨2019, 12, 1⟩
        from by decide,
      show next_coupon_date 30 2020 ⟨2020, 5, 12⟩ ⟨2021, 6, 1⟩ 2 = some ⟨2020, 6, 1⟩
        from by decide,
      if_neg (by simp), if_neg (by rw [abs_of_pos (by norm_num : (0:ℝ) < 2 / 100)]; norm_num)]
  exact claim_C1 30 2020 ⟨2020, 5, 12⟩ ⟨2021, 6, 1⟩ (2 / 100) (1 / 100) 2 100
    ⟨2019, 12, 1⟩ ⟨2020, 6, 1⟩ 2 _ (by decide) (by decide) (by decide) (by norm_num) hai

/-- C2: `interest_accrued` returns 0 whenever the NaN test on the coupon
rate or the frequency fires or `|couponRate| < 1e-3`; otherwise (when the
schedule is defined, with `p`/`nx` its prior/next coupon dates) it
returns `couponRate * nominal / frequency * (settlement - p).days /
(nx - p).days`. -/
theorem claim_C2 (fuel : ℕ) (nowYear : ℤ) (settlement maturity : Date) (coupon_rate : ℝ)
    (frequency : ℕ) (nominal : ℝ) :
    (∀ cNaN fNaN : Bool, cNaN = true ∨ fNaN = true →
        interest_accrued fuel nowYear settlement maturity coupon_rate frequency nominal
          cNaN fNaN = some 0)
    ∧ (|coupon_rate| < 1e-3 →
        interest_accrued fuel nowYear settlement maturity coupon_rate frequency nominal
          false false = some 0)
    ∧ (∀ p nx : Date, (1e-3 : ℝ) ≤ |coupon_rate| →
        prior_coupon_date fuel nowYear settlement maturity frequency = some p →
        next_coupon_date fuel nowYear settlement maturity frequency = some nx →
        interest_accrued fuel nowYear settlement maturity coupon_rate frequency nominal
            false false
          = some (coupon_rate * nominal / frequency * (daysBetween settlement p : ℝ)
              / (daysBetween nx p : ℝ))) := by
  refine ⟨?_, ?_, ?_⟩
  · rintro cN fN h
    unfold interest_accrued
    have hcf : (cN || fN) = true := by rcases h with h | h <;> simp [h]
    rw [if_pos hcf]
  · intro hg
    unfold interest_accrued
    rw [if_neg (by simp), if_pos hg]
  · intro p nx hg hp hn
    unfold interest_accrued
    rw [hp, hn, if_neg (by simp), if_neg (not_lt.mpr hg)]

/-- C2 witness: the NaN guard, the small-coupon guard, and the accrual
formula each instantiated at concrete dates. -/
theorem claim_C2_witness :
    interest_accrued 30 2020 ⟨2020, 5, 12⟩ ⟨2028, 6, 1⟩ (2 / 100) 2 100 true false = some 0
    ∧ interest_accrued 30 2020 ⟨2020, 5, 12⟩ ⟨2028, 6, 1⟩ (1 / 10000) 2 100 false false
        = some 0
    ∧ interest_accrued 30 2020 ⟨2020, 5, 12⟩ ⟨2028, 6, 1⟩ (2 / 100) 2 100 false false
        = some (2 / 100 * 100 / ((2 : ℕ) : ℝ)
            * ((daysBetween ⟨2020, 5, 12⟩ ⟨2019, 12, 1⟩ : ℤ) : ℝ)
            / ((daysBetween ⟨2020, 6, 1⟩ ⟨2019, 12, 1⟩ : ℤ) : ℝ)) :=
  ⟨(claim_C2 30 2020 ⟨2020, 5, 12⟩ ⟨2028, 6, 1⟩ (2 / 100) 2 100).1 true false (Or.inl rfl),
    (claim_C2 30 2020 ⟨2020, 5, 12⟩ ⟨2028, 6, 1⟩ (1 / 10000) 2 100).2.1
      (by rw [abs_of_pos (by norm_num : (0:ℝ) < 1 / 10000)]; norm_num),
    (claim_C2 30 2020 ⟨2020, 5, 12⟩ ⟨2028, 6, 1⟩ (2 / 100) 2 100).2.2
      ⟨2019, 12, 1⟩ ⟨2020, 6, 1⟩
      (by rw [abs_of_pos (by norm_num : (0:ℝ) < 2 / 100)]; norm_num)
      (by decide) (by decide)⟩

/-- C5 counterexample: with the clock in 2019, settlement 2020-12-01
falls exactly on a coupon date (it equals the next coupon date), and
`interest_accrued` returns the full coupon payment 1, not 0 as claimed. -/
theorem claim_C5_counterexample :
    interest_accrued 30 2019 ⟨2020, 12, 1⟩ ⟨2020, 12, 1⟩ (2 / 100) 2 100 false false = some 1
    ∧ next_coupon_date 30 2019 ⟨2020, 12, 1⟩ ⟨2020, 12, 1⟩ 2 = some ⟨2020, 12, 1⟩
    ∧ (1 : ℝ) ≠ 0 := by
  refine ⟨?_, by decide, by norm_num⟩
  unfold interest_accrued
  rw [show prior_coupon_date 30 2019 ⟨2020, 12, 1⟩ ⟨2020, 12, 1⟩ 2 = some ⟨2020, 6, 1⟩
      from by decide,
    show next_coupon_date 30 2019 ⟨2020, 12, 1⟩ ⟨2020, 12, 1⟩ 2 = some ⟨2020, 12, 1⟩
      from by decide,
    if_neg (by simp), if_neg (by rw [abs_of_pos (by norm_num : (0:ℝ) < 2 / 100)]; norm_num)]
  show some (2 / 100 * 100 / ((2 : ℕ) : ℝ)
      * ((daysBetween ⟨2020, 12, 1⟩ ⟨2020, 6, 1⟩ : ℤ) : ℝ)
      / ((daysBetween ⟨2020, 12, 1⟩ ⟨2020, 6, 1⟩ : ℤ) : ℝ)) = some 1
  rw [show (daysBetween ⟨2020, 12, 1⟩ ⟨2020, 6, 1⟩ : ℤ) = 183 from by decide]
  norm_num

/-- C5 (amended): for couponRate ≥ 0, nominal ≥ 0 and frequency > 0, on a
defined schedule `0 ≤ interest_accrued ≤ couponRate * nominal / frequency`
whenever settlement lies strictly before the next coupon date; when
settlement falls exactly on a coupon date (settlement = nextCouponDate)
the accrual equals the full coupon `couponRate * nominal / frequency`
when `|couponRate| ≥ 1e-3`, and 0 under the small-coupon guard — not 0 in
general as the original claim stated. -/
theorem claim_C5 (fuel : ℕ) (nowYear : ℤ) (settlement maturity : Date) (coupon_rate : ℝ)
    (frequency : ℕ) (nominal : ℝ) (p nx : Date) (ai : ℝ)
    (hc : 0 ≤ coupon_rate) (hN : 0 ≤ nominal) (hf : 0 < frequency)
    (hp : prior_coupon_date fuel nowYear settlement maturity frequency = some p)
    (hn : next_coupon_date fuel nowYear settlement maturity frequency = some nx)
    (hai : interest_accrued fuel nowYear settlement maturity coupon_rate frequency nominal
      false false = some ai) :
    (settlement < nx → 0 ≤ ai ∧ ai ≤ coupon_rate * nominal / frequency)
    ∧ (settlement = nx →
        ((1e-3 : ℝ) ≤ |coupon_rate| → ai = coupon_rate * nominal / frequency)
        ∧ (|coupon_rate| < 1e-3 → ai = 0)) := by
  have hfR : (0 : ℝ) < frequency := by exact_mod_cast hf
  obtain ⟨hlt, hbreak, -⟩ := prior_coupon_date_some hp
  obtain ⟨q, hq, hnxeq⟩ := next_coupon_date_some_inv hn
  rw [hp] at hq
  obtain rfl : p = q := by injection hq
  have hsnx : settlement ≤ nx := by
    rw [hnxeq]
    exact Date.not_lt.mp hbreak
  have hdp : (0 : ℤ) < daysBetween settlement p := by
    rw [Date.lt_def] at hlt
    unfold daysBetween
    omega
  have hdn : (0 : ℤ) < daysBetween nx p := by
    rw [Date.lt_def] at hlt
    rw [Date.le_def] at hsnx
    unfold daysBetween
    omega
  have hds_le : daysBetween settlement p ≤ daysBetween nx p := by
    rw [Date.le_def] at hsnx
    unfold daysBetween
    omega
  unfold interest_accrued at hai
  rw [hp, hn, if_neg (by simp)] at hai
  have hcNf : 0 ≤ coupon_rate * nominal / frequency :=
    div_nonneg (mul_nonneg hc hN) hfR.le
  by_cases hg : |coupon_rate| < 1e-3
  · rw [if_pos hg] at hai
    obtain rfl : (0 : ℝ) = ai := by injection hai
    refine ⟨fun _ => ⟨le_refl 0, hcNf⟩, fun _ => ⟨fun habs => ?_, fun _ => rfl⟩⟩
    exact absurd hg (not_lt.mpr habs)
  · rw [if_neg hg] at hai
    obtain rfl : coupon_rate * nominal / frequency * (daysBetween settlement p : ℝ)
        / (daysBetween nx p : ℝ) = ai := by injection hai
    have hdnR : (0 : ℝ) < ((daysBetween nx p : ℤ) : ℝ) := by exact_mod_cast hdn
    have hdpR : (0 : ℝ) < ((daysBetween settlement p : ℤ) : ℝ) := by exact_mod_cast hdp
    have hdsleR : ((daysBetween settlement p : ℤ) : ℝ) ≤ ((daysBetween nx p : ℤ) : ℝ) := by
      exact_mod_cast hds_le
    constructor
    · intro _
      constructor
      · exact div_nonneg (mul_nonneg hcNf hdpR.le) hdnR.le
      · rw [div_le_iff₀ hdnR]
        exact mul_le_mul_of_nonneg_left hdsleR hcNf
    · intro hse
      refine ⟨fun _ => ?_, fun habs => absurd habs hg⟩
      subst hse
      rw [mul_div_assoc, div_self (ne_of_gt hdnR), mul_one]

/-- C5 witness: a settlement strictly between two coupon dates, where the
accrued interest 163/183 of a full coupon lies within the claimed
bounds. -/
theorem claim_C5_witness :
    (0 : ℝ) ≤ 2 / 100 * 100 / ((2 : ℕ) : ℝ)
        * ((daysBetween ⟨2020, 5, 12⟩ ⟨2019, 12, 1⟩ : ℤ) : ℝ)
        / ((daysBetween ⟨2020, 6, 1⟩ ⟨2019, 12, 1⟩ : ℤ) : ℝ)
    ∧ 2 / 100 * 100 / ((2 : ℕ) : ℝ)
        * ((daysBetween ⟨2020, 5, 12⟩ ⟨2019, 12, 1⟩ : ℤ) : ℝ)
        / ((daysBetween ⟨2020, 6, 1⟩ ⟨2019, 12, 1⟩ : ℤ) : ℝ)
      ≤ 2 / 100 * 100 / ((2 : ℕ) : ℝ) := by
  have hai : interest_accrued 30 2020 ⟨2020, 5, 12⟩ ⟨2028, 6, 1⟩ (2 / 100) 2 100 false false
      = some (2 / 100 * 100 / ((2 : ℕ) : ℝ)
          * ((daysBetween ⟨2020, 5, 12⟩ ⟨2019, 12, 1⟩ : ℤ) : ℝ)
          / ((daysBetween ⟨2020, 6, 1⟩ ⟨2019, 12, 1⟩ : ℤ) : ℝ)) := by
    unfold interest_accrued
    rw [show prior_coupon_date 30 2020 ⟨2020, 5, 12⟩ ⟨2028, 6, 1⟩ 2 = some ⟨2019, 12, 1⟩
        from by decide,
      show next_coupon_date 30 2020 ⟨2020, 5, 12⟩ ⟨2028, 6, 1⟩ 2 = some ⟨2020, 6, 1⟩
        from by decide,
      if_neg (by simp), if_neg (by rw [abs_of_pos (by norm_num : (0:ℝ) < 2 / 100)]; norm_num)]
  exact (claim_C5 30 2020 ⟨2020, 5, 12⟩ ⟨2028, 6, 1⟩ (2 / 100) 2 100 ⟨2019, 12, 1⟩
    ⟨2020, 6, 1⟩ _ (by norm_num) (by norm_num) (by norm_num) (by decide) (by decide) hai).1
    (by decide)

/-- C6 counterexample: with settlement equal to maturity (both on the
coupon lattice, schedule defined, couponRate 0.02 ≥ 0, nominal 100 > 0),
the clean price is the same at discount rates 0.01 and 0.02 — the price
is not strictly decreasing in the discount rate as claimed. -/
theorem claim_C6_counterexample :
    prior_coupon_date 30 2019 ⟨2020, 12, 1⟩ ⟨2020, 12, 1⟩ 2 = some ⟨2020, 6, 1⟩
    ∧ next_coupon_date 30 2019 ⟨2020, 12, 1⟩ ⟨2020, 12, 1⟩ 2 = some ⟨2020, 12, 1⟩
    ∧ addPeriods (12 / 2) 0 ⟨2020, 12, 1⟩ = ⟨2020, 12, 1⟩
    ∧ (1 / 100 : ℝ) < 2 / 100
    ∧ get_clean_price 30 2019 ⟨2020, 12, 1⟩ ⟨2020, 12, 1⟩ (2 / 100) (1 / 100) 2 100
      = get_clean_price 30 2019 ⟨2020, 12, 1⟩ ⟨2020, 12, 1⟩ (2 / 100) (2 / 100) 2 100 := by
  refine ⟨by decide, by decide, by decide, by norm_num, ?_⟩
  have hai : interest_accrued 30 2019 ⟨2020, 12, 1⟩ ⟨2020, 12, 1⟩ (2 / 100) 2 100 false false
      = some (2 / 100 * 100 / ((2 : ℕ) : ℝ)
          * ((daysBetween ⟨2020, 12, 1⟩ ⟨2020, 6, 1⟩ : ℤ) : ℝ)
          / ((daysBetween ⟨2020, 12, 1⟩ ⟨2020, 6, 1⟩ : ℤ) : ℝ)) := by
    unfold interest_accrued
    rw [show prior_coupon_date 30 2019 ⟨2020, 12, 1⟩ ⟨2020, 12, 1⟩ 2 = some ⟨2020, 6, 1⟩
        from by decide,
      show next_coupon_date 30 2019 ⟨2020, 12, 1⟩ ⟨2020, 12, 1⟩ 2 = some ⟨2020, 12, 1⟩
        from by decide,
      if_neg (by simp), if_neg (by rw [abs_of_pos (by norm_num : (0:ℝ) < 2 / 100)]; norm_num)]
  rw [get_clean_price_closed 30 2019 ⟨2020, 12, 1⟩ ⟨2020, 12, 1⟩ (2 / 100) (1 / 100) 2 100
      ⟨2020, 6, 1⟩ ⟨2020, 12, 1⟩ 0 _ (by decide) (by decide) (by decide) (by norm_num) hai,
    get_clean_price_closed 30 2019 ⟨2020, 12, 1⟩ ⟨2020, 12, 1⟩ (2 / 100) (2 / 100) 2 100
      ⟨2020, 6, 1⟩ ⟨2020, 12, 1⟩ 0 _ (by decide) (by decide) (by decide) (by norm_num) hai]
  have hw : ((0 : ℕ) : ℝ) + fracW ⟨2020, 12, 1⟩ ⟨2020, 12, 1⟩ ⟨2020, 6, 1⟩ = 0 := by
    unfold fracW daysBetween
    norm_num
  rw [hw, Real.rpow_zero, Real.rpow_zero]
  simp [Finset.sum_range_zero]

/-- C6 (amended): holding all else fixed, with couponRate ≥ 0,
nominal > 0, a defined schedule, maturity on the coupon lattice, and in
addition settlement strictly before maturity and discount rates with a
positive discount base (`0 < 1 + r/frequency`), the clean price is
strictly decreasing in the discount rate.  (When settlement = maturity
the price is constant — see the counterexample — and for
`1 + r/frequency ≤ 0` the float power/division of the source is not even
real-valued.) -/
theorem claim_C6 (fuel : ℕ) (nowYear : ℤ) (settlement maturity : Date)
    (coupon_rate r1 r2 : ℝ) (frequency : ℕ) (nominal : ℝ)
    (p nx : Date) (k : ℕ) (ai P1 P2 : ℝ)
    (hp : prior_coupon_date fuel nowYear settlement maturity frequency = some p)
    (hn : next_coupon_date fuel nowYear settlement maturity frequency = some nx)
    (hk : addPeriods (12 / frequency) k nx = maturity)
    (hkf : k ≤ fuel)
    (hai : interest_accrued fuel nowYear settlement maturity coupon_rate frequency nominal
      false false = some ai)
    (hc : 0 ≤ coupon_rate) (hN : 0 < nominal) (hsm : settlement < maturity)
    (hB : 0 < 1 + r1 / (frequency : ℝ)) (hr : r1 < r2)
    (h1 : get_clean_price fuel nowYear settlement maturity coupon_rate r1 frequency nominal
      = some P1)
    (h2 : get_clean_price fuel nowYear settlement maturity coupon_rate r2 frequency nominal
      = some P2) :
    P2 < P1 := by
  rw [get_clean_price_closed fuel nowYear settlement maturity coupon_rate r1 frequency nominal
    p nx k ai hp hn hk hkf hai] at h1
  rw [get_clean_price_closed fuel nowYear settlement maturity coupon_rate r2 frequency nominal
    p nx k ai hp hn hk hkf hai] at h2
  obtain rfl : _ = P1 := by injection h1
  obtain rfl : _ = P2 := by injection h2
  have hm1 := months_pos_of_prior_some hp
  have hfpos : 0 < frequency := by
    rcases Nat.eq_zero_or_pos frequency with h0 | h0
    · rw [h0] at hm1
      simp at hm1
    · exact h0
  have hfR : (0 : ℝ) < frequency := by exact_mod_cast hfpos
  have hBlt : 1 + r1 / (frequency : ℝ) < 1 + r2 / frequency := by
    have := (div_lt_div_iff_of_pos_right hfR).mpr hr
    linarith
  obtain ⟨hlt, hbreak, -⟩ := prior_coupon_date_some hp
  obtain ⟨q, hq, hnxeq⟩ := next_coupon_date_some_inv hn
  rw [hp] at hq
  obtain rfl : p = q := by injection hq
  have hsnx : settlement ≤ nx := by
    rw [hnxeq]
    exact Date.not_lt.mp hbreak
  clear hbreak
  have hdn : (0 : ℤ) < daysBetween nx p := by
    rw [Date.lt_def] at hlt
    rw [Date.le_def] at hsnx
    unfold daysBetween
    omega
  have hdnR : (0 : ℝ) < ((daysBetween nx p : ℤ) : ℝ) := by exact_mod_cast hdn
  have hdsR : (0 : ℝ) ≤ ((daysBetween nx settlement : ℤ) : ℝ) := by
    rw [Date.le_def] at hsnx
    have : (0 : ℤ) ≤ daysBetween nx settlement := by unfold daysBetween; omega
    exact_mod_cast this
  have hw0 : 0 ≤ fracW nx settlement p := div_nonneg hdsR hdnR.le
  have hkw : 0 < (k : ℝ) + fracW nx settlement p := by
    rcases Nat.eq_zero_or_pos k with hk0 | hk0
    · subst hk0
      have hnm : nx = maturity := hk
      rw [← hnm] at hsm
      have hdspos : (0 : ℤ) < daysBetween nx settlement := by
        rw [Date.lt_def] at hsm
        unfold daysBetween
        omega
      have hdsposR : (0 : ℝ) < ((daysBetween nx settlement : ℤ) : ℝ) := by exact_mod_cast hdspos
      have hwpos : 0 < fracW nx settlement p := div_pos hdsposR hdnR
      simpa using hwpos
    · have hk1 : (1 : ℝ) ≤ (k : ℝ) := by exact_mod_cast hk0
      linarith
  have hsum : ∑ i ∈ Finset.range k, coupon_rate * nominal / frequency
        / (1 + r2 / frequency) ^ ((i : ℝ) + fracW nx settlement p)
      ≤ ∑ i ∈ Finset.range k, coupon_rate * nominal / frequency
        / (1 + r1 / frequency) ^ ((i : ℝ) + fracW nx settlement p) := by
    apply Finset.sum_le_sum
    intro i _
    have he : (0 : ℝ) ≤ (i : ℝ) + fracW nx settlement p :=
      add_nonneg (Nat.cast_nonneg i) hw0
    have h1pos : (0 : ℝ) < (1 + r1 / frequency) ^ ((i : ℝ) + fracW nx settlement p) :=
      Real.rpow_pos_of_pos hB _
    have h2pos : (0 : ℝ) < (1 + r2 / frequency) ^ ((i : ℝ) + fracW nx settlement p) :=
      Real.rpow_pos_of_pos (lt_trans hB hBlt) _
    have hle : (1 + r1 / frequency) ^ ((i : ℝ) + fracW nx settlement p)
        ≤ (1 + r2 / frequency) ^ ((i : ℝ) + fracW nx settlement p) :=
      Real.rpow_le_rpow hB.le hBlt.le he
    have hnum : 0 ≤ coupon_rate * nominal / frequency :=
      div_nonneg (mul_nonneg hc hN.le) hfR.le
    rw [div_le_div_iff₀ h2pos h1pos]
    exact mul_le_mul_of_nonneg_left hle hnum
  have hfin : nominal * (1 + coupon_rate / frequency)
        / (1 + r2 / frequency) ^ ((k : ℝ) + fracW nx settlement p)
      < nominal * (1 + coupon_rate / frequency)
        / (1 + r1 / frequency) ^ ((k : ℝ) + fracW nx settlement p) := by
    have hnum : 0 < nominal * (1 + coupon_rate / frequency) := by
      have hcf : 0 ≤ coupon_rate / frequency := div_nonneg hc hfR.le
      nlinarith
    have h1pos : (0 : ℝ) < (1 + r1 / frequency) ^ ((k : ℝ) + fracW nx settlement p) :=
      Real.rpow_pos_of_pos hB _
    have h2pos : (0 : ℝ) < (1 + r2 / frequency) ^ ((k : ℝ) + fracW nx settlement p) :=
      Real.rpow_pos_of_pos (lt_trans hB hBlt) _
    have hlt2 : (1 + r1 / frequency) ^ ((k : ℝ) + fracW nx settlement p)
        < (1 + r2 / frequency) ^ ((k : ℝ) + fracW nx settlement p) :=
      Real.rpow_lt_rpow hB.le hBlt hkw
    exact (div_lt_div_iff_of_pos_left hnum h2pos h1pos).mpr hlt2
  linarith

/-- C6 witness: settlement 2020-05-12, maturity on the next coupon date
2020-06-01 (`k = 0`), discount rates 0.01 < 0.02: the computed clean
prices strictly decrease. -/
theorem claim_C6_witness :
    (∑ i ∈ Finset.range 0, 2 / 100 * 100 / ((2 : ℕ) : ℝ)
        / (1 + 2 / 100 / ((2 : ℕ) : ℝ))
          ^ ((i : ℝ) + fracW ⟨2020, 6, 1⟩ ⟨2020, 5, 12⟩ ⟨2019, 12, 1⟩))
      + 100 * (1 + 2 / 100 / ((2 : ℕ) : ℝ))
        / (1 + 2 / 100 / ((2 : ℕ) : ℝ))
          ^ (((0 : ℕ) : ℝ) + fracW ⟨2020, 6, 1⟩ ⟨2020, 5, 12⟩ ⟨2019, 12, 1⟩)
      - (2 / 100 * 100 / ((2 : ℕ) : ℝ)
        * ((daysBetween ⟨2020, 5, 12⟩ ⟨2019, 12, 1⟩ : ℤ) : ℝ)
        / ((daysBetween ⟨2020, 6, 1⟩ ⟨2019, 12, 1⟩ : ℤ) : ℝ))
    < (∑ i ∈ Finset.range 0, 2 / 100 * 100 / ((2 : ℕ) : ℝ)
        / (1 + 1 / 100 / ((2 : ℕ) : ℝ))
          ^ ((i : ℝ) + fracW ⟨2020, 6, 1⟩ ⟨2020, 5, 12⟩ ⟨2019, 12, 1⟩))
      + 100 * (1 + 2 / 100 / ((2 : ℕ) : ℝ))
        / (1 + 1 / 100 / ((2 : ℕ) : ℝ))
          ^ (((0 : ℕ) : ℝ) + fracW ⟨2020, 6, 1⟩ ⟨2020, 5, 12⟩ ⟨2019, 12, 1⟩)
      - (2 / 100 * 100 / ((2 : ℕ) : ℝ)
        * ((daysBetween ⟨2020, 5, 12⟩ ⟨2019, 12, 1⟩ : ℤ) : ℝ)
        / ((daysBetween ⟨2020, 6, 1⟩ ⟨2019, 12, 1⟩ : ℤ) : ℝ)) := by
  have hai : interest_accrued 30 2020 ⟨2020, 5, 12⟩ ⟨2020, 6, 1⟩ (2 / 100) 2 100 false false
      = some (2 / 100 * 100 / ((2 : ℕ) : ℝ)
          * ((daysBetween ⟨2020, 5, 12⟩ ⟨2019, 12, 1⟩ : ℤ) : ℝ)
          / ((daysBetween ⟨2020, 6, 1⟩ ⟨2019, 12, 1⟩ : ℤ) : ℝ)) := by
    unfold interest_accrued
    rw [show prior_coupon_date 30 2020 ⟨2020, 5, 12⟩ ⟨2020, 6, 1⟩ 2 = some ⟨2019, 12, 1⟩
        from by decide,
      show next_coupon_date 30 2020 ⟨2020, 5, 12⟩ ⟨2020, 6, 1⟩ 2 = some ⟨2020, 6, 1⟩
        from by decide,
      if_neg (by simp), if_neg (by rw [abs_of_pos (by norm_num : (0:ℝ) < 2 / 100)]; norm_num)]
  have h1 := get_clean_price_closed 30 2020 ⟨2020, 5, 12⟩ ⟨2020, 6, 1⟩ (2 / 100) (1 / 100) 2 100
    ⟨2019, 12, 1⟩ ⟨2020, 6, 1⟩ 0 _ (by decide) (by decide) (by decide) (by norm_num) hai
  have h2 := get_clean_price_closed 30 2020 ⟨2020, 5, 12⟩ ⟨2020, 6, 1⟩ (2 / 100) (2 / 100) 2 100
    ⟨2019, 12, 1⟩ ⟨2020, 6, 1⟩ 0 _ (by decide) (by decide) (by decide) (by norm_num) hai
  exact claim_C6 30 2020 ⟨2020, 5, 12⟩ ⟨2020, 6, 1⟩ (2 / 100) (1 / 100) (2 / 100) 2 100
    ⟨2019, 12, 1⟩ ⟨2020, 6, 1⟩ 0 _ _ _ (by decide) (by decide) (by decide) (by norm_num) hai
    (by norm_num) (by norm_num) (by decide) (by norm_num) (by norm_num) h1 h2

/-- C9 counterexample: a call with frequency 5, which does not divide 12
evenly, is not rejected: `get_clean_price` returns a price (here on the
`12 / 5 = 2`-month lattice from 2020-07-01 to maturity 2021-01-01). -/
theorem claim_C9_counterexample :
    (get_clean_price 33 2020 ⟨2020, 5, 12⟩ ⟨2021, 1, 1⟩ (2 / 100) (1 / 100) 5
      100).isSome = true
    ∧ 12 % 5 ≠ 0 := by
  refine ⟨?_, by decide⟩
  exact gcp_isSome_of 30 2020 ⟨2020, 5, 12⟩ ⟨2021, 1, 1⟩ 5 (2 / 100) (1 / 100) 100
    ⟨2020, 5, 1⟩ ⟨2020, 7, 1⟩ 3 (by decide) (by decide) (by decide)

/-- C9 (amended): `get_clean_price` performs no input validation.  In
particular a frequency that does not divide 12 evenly is silently
accepted and priced on a `floor(12/frequency)`-month lattice: with
frequency 5 the call below walks 2-month periods and returns the
corresponding discounted cashflow sum.  (A NaN couponRate is likewise
unguarded in `get_clean_price` — only `interest_accrued` has a NaN
check — and zero or negative frequency raises from the period
arithmetic, not from any explicit validation.) -/
theorem claim_C9 :
    get_clean_price 33 2020 ⟨2020, 5, 12⟩ ⟨2021, 1, 1⟩ (2 / 100) (1 / 100) 5 100
      = some ((∑ i ∈ Finset.range 3, 2 / 100 * 100 / ((5 : ℕ) : ℝ)
            / (1 + 1 / 100 / ((5 : ℕ) : ℝ))
              ^ ((i : ℝ) + fracW ⟨2020, 7, 1⟩ ⟨2020, 5, 12⟩ ⟨2020, 5, 1⟩))
          + 100 * (1 + 2 / 100 / ((5 : ℕ) : ℝ))
            / (1 + 1 / 100 / ((5 : ℕ) : ℝ))
              ^ (((3 : ℕ) : ℝ) + fracW ⟨2020, 7, 1⟩ ⟨2020, 5, 12⟩ ⟨2020, 5, 1⟩)
          - (2 / 100 * 100 / ((5 : ℕ) : ℝ)
            * ((daysBetween ⟨2020, 5, 12⟩ ⟨2020, 5, 1⟩ : ℤ) : ℝ)
            / ((daysBetween ⟨2020, 7, 1⟩ ⟨2020, 5, 1⟩ : ℤ) : ℝ))) := by
  have hai : interest_accrued 33 2020 ⟨2020, 5, 12⟩ ⟨2021, 1, 1⟩ (2 / 100) 5 100 false false
      = some (2 / 100 * 100 / ((5 : ℕ) : ℝ)
          * ((daysBetween ⟨2020, 5, 12⟩ ⟨2020, 5, 1⟩ : ℤ) : ℝ)
          / ((daysBetween ⟨2020, 7, 1⟩ ⟨2020, 5, 1⟩ : ℤ) : ℝ)) := by
    unfold interest_accrued
    rw [show prior_coupon_date 33 2020 ⟨2020, 5, 12⟩ ⟨2021, 1, 1⟩ 5 = some ⟨2020, 5, 1⟩
        from by decide,
      show next_coupon_date 33 2020 ⟨2020, 5, 12⟩ ⟨2021, 1, 1⟩ 5 = some ⟨2020, 7, 1⟩
        from by decide,
      if_neg (by simp), if_neg (by rw [abs_of_pos (by norm_num : (0:ℝ) < 2 / 100)]; norm_num)]
  exact get_clean_price_closed 33 2020 ⟨2020, 5, 12⟩ ⟨2021, 1, 1⟩ (2 / 100) (1 / 100) 5 100
    ⟨2020, 5, 1⟩ ⟨2020, 7, 1⟩ 3 _ (by decide) (by decide) (by decide) (by norm_num) hai

end SimplePricer
